import Mathlib

/-!
Verification of the myPOS Sigma IPP-over-serial client
(src/payment/sigma/sigma_ipp_client.py).

The wire codec (`_build_payload_lines`, `_write_frame`, `_read_one_frame`)
is embedded at byte level: a byte is a `Nat`, a byte string is a `List Nat`,
and the Python `dict` of decoded fields is an association list built with
Python's insert-or-replace assignment.  The read loop's timeout window is
modelled by a fuel counter (one unit per loop iteration) and the bytes
available within the window by the input list: a `ser.read(n)` takes up to
`n` bytes from the front of the list, and a read past the end returns what
is left, exactly like a serial read that times out short.
-/

namespace SigmaIpp

/-- Byte-level field mapping: an association list of (key, value) byte
strings, mirroring the Python dict built by `_read_one_frame`. -/
abbrev ByteProps := List (List Nat × List Nat)

/-- Python dict assignment `d[k] = v`: replace the value in place if the key
already exists, otherwise append the new pair at the end. -/
def dictInsert : ByteProps → List Nat → List Nat → ByteProps
  | [], k, v => [(k, v)]
  | (k0, v0) :: t, k, v =>
    if k0 = k then (k0, v) :: t else (k0, v0) :: dictInsert t k v

/-- Helper for `splitCRLF`: prepend a byte to the first chunk. -/
def consHead (c : Nat) : List (List Nat) → List (List Nat)
  | [] => [[c]]
  | h :: t => (c :: h) :: t

/-- Split a byte string on the two-byte sequence CR LF, with the semantics of
Python's `txt.split("\r\n")` (leftmost, non-overlapping occurrences). -/
def splitCRLF : List Nat → List (List Nat)
  | [] => [[]]
  | [c] => [[c]]
  | c :: d :: rest =>
    if c = 13 ∧ d = 10 then [] :: splitCRLF rest
    else consHead c (splitCRLF (d :: rest))

/-- Split a line at its first
equals sign (byte 61) into key and value, as Python's `ln.split("=", 1)`
guarded by `"=" in ln`; `none` when the line has no equals sign. -/
def splitFirstEq : List Nat → Option (List Nat × List Nat)
  | [] => none
  | c :: t =>
    if c = 61 then some ([], t)
    else Option.map (fun kv => (c :: kv.1, kv.2)) (splitFirstEq t)

/-- ASCII decoding with `errors="replace"`: bytes at or above 128 become the
replacement character U+FFFD (code point 65533). -/
def asciiDecode (l : List Nat) : List Nat :=
  l.map fun b => if b < 128 then b else 65533

/-- Fold the split lines of a decoded payload into the fields dict:
every line containing an equals sign contributes its first-split key/value,
lines without one are ignored. -/
def insertLines (d : ByteProps) (lns : List (List Nat)) : ByteProps :=
  lns.foldl
    (fun d ln =>
      match splitFirstEq ln with
      | some kv => dictInsert d kv.1 kv.2
      | none => d)
    d

/-- Parse a decoded payload into the fields dict (the loop body of
`_read_one_frame` after a complete payload has been read). -/
def parseProps (txt : List Nat) : ByteProps :=
  insertLines [] (splitCRLF txt)

/-- Model of `_build_payload_lines`: join the lines, each with its own
trailing CR LF. -/
def buildPayloadLines (lines : List (List Nat)) : List Nat :=
  (lines.map (fun ln => ln ++ [13, 10])).flatten

/-- Model of `_write_frame` framing: a 2-byte big-endian total length that
counts the two length bytes themselves, followed by the payload.  Faithful
for total lengths up to 65535; beyond that `int.to_bytes(2, "big")` raises,
so the theorems carry that bound as a hypothesis. -/
def encodeFrame (payload : List Nat) : List Nat :=
  (payload.length + 2) / 256 :: (payload.length + 2) % 256 :: payload

/-- Model of `_read_one_frame`: fuel counts loop iterations of the timeout
window, the list holds the bytes that arrive within the window.  Returns the
fields dict together with the decoded text, as the source returns
`(props, txt)`. -/
def readOneFrame : Nat → List Nat → Option (ByteProps × List Nat)
  | 0, _ => none
  | n + 1, [] => readOneFrame n []
  | n + 1, [_] => readOneFrame n []
  | n + 1, b0 :: b1 :: rest =>
    if b0 * 256 + b1 < 3 then readOneFrame n rest
    else if (rest.take (b0 * 256 + b1 - 2)).length < b0 * 256 + b1 - 2 then
      readOneFrame n (rest.drop (b0 * 256 + b1 - 2))
    else
      some (parseProps (asciiDecode (rest.take (b0 * 256 + b1 - 2))),
            asciiDecode (rest.take (b0 * 256 + b1 - 2)))

/-- A `KEY=VALUE` line as bytes. -/
def lineOf (kv : List Nat × List Nat) : List Nat := kv.1 ++ 61 :: kv.2

/-- The payload built from an ordered list of key/value pairs. -/
def payloadOf (pairs : ByteProps) : List Nat :=
  buildPayloadLines (pairs.map lineOf)

/-! Basic codec lemmas. -/

theorem readOneFrame_nil : ∀ n, readOneFrame n [] = none
  | 0 => rfl
  | n + 1 => readOneFrame_nil n

theorem splitCRLF_cons_ne13 (c : Nat) (h : c ≠ 13) (rest : List Nat) :
    splitCRLF (c :: rest) = consHead c (splitCRLF rest) := by
  cases rest with
  | nil => rfl
  | cons d rest2 =>
    have : ¬(c = 13 ∧ d = 10) := fun hcd => h hcd.1
    simp only [splitCRLF, if_neg this]

theorem splitFirstEq_cons_ne61 (c : Nat) (h : c ≠ 61) (t : List Nat) :
    splitFirstEq (c :: t) =
      Option.map (fun kv => (c :: kv.1, kv.2)) (splitFirstEq t) := by
  simp only [splitFirstEq, if_neg h]

theorem splitCRLF_line (ln : List Nat) (h : 13 ∉ ln) (r : List Nat) :
    splitCRLF (ln ++ 13 :: 10 :: r) = ln :: splitCRLF r := by
  induction ln with
  | nil => rfl
  | cons c cs ih =>
    have hc : c ≠ 13 := by
      intro hc; exact h (hc ▸ List.mem_cons_self c cs)
    have hcs : 13 ∉ cs := fun hm => h (List.mem_cons_of_mem c hm)
    rw [List.cons_append, splitCRLF_cons_ne13 c hc, ih hcs]
    rfl

theorem splitCRLF_payload (lines : List (List Nat))
    (h : ∀ ln ∈ lines, 13 ∉ ln) :
    splitCRLF (buildPayloadLines lines) = lines ++ [[]] := by
  induction lines with
  | nil => rfl
  | cons ln rest ih =>
    have h1 : 13 ∉ ln := h ln (List.mem_cons_self ln rest)
    have h2 : ∀ l ∈ rest, 13 ∉ l := fun l hl => h l (List.mem_cons_of_mem ln hl)
    have : buildPayloadLines (ln :: rest) =
        ln ++ 13 :: 10 :: buildPayloadLines rest := by
      simp [buildPayloadLines]
    rw [this, splitCRLF_line ln h1, ih h2]
    rfl

theorem splitFirstEq_line (k v : List Nat) (h : 61 ∉ k) :
    splitFirstEq (k ++ 61 :: v) = some (k, v) := by
  induction k with
  | nil => rfl
  | cons c cs ih =>
    have hc : c ≠ 61 := by
      intro hc; exact h (hc ▸ List.mem_cons_self c cs)
    have hcs : 61 ∉ cs := fun hm => h (List.mem_cons_of_mem c hm)
    rw [List.cons_append, splitFirstEq_cons_ne61 c hc, ih hcs]
    rfl

theorem dictInsert_fresh (d : ByteProps) (k v : List Nat)
    (h : k ∉ d.map Prod.fst) :
    dictInsert d k v = d ++ [(k, v)] := by
  induction d with
  | nil => rfl
  | cons p t ih =>
    obtain ⟨k0, v0⟩ := p
    have hk0 : k0 ≠ k := by
      intro he; exact h (by simp [he])
    have ht : k ∉ t.map Prod.fst := by
      intro hm; exact h (by simp [hm])
    simp [dictInsert, hk0, ih ht]

theorem insertLines_map (pairs : ByteProps) (d : ByteProps)
    (hk61 : ∀ kv ∈ pairs, 61 ∉ kv.1)
    (hfresh : ∀ kv ∈ pairs, kv.1 ∉ d.map Prod.fst)
    (hnd : (pairs.map Prod.fst).Nodup) :
    insertLines d (pairs.map lineOf) = d ++ pairs := by
  induction pairs generalizing d with
  | nil => simp [insertLines]
  | cons kv rest ih =>
    obtain ⟨k, v⟩ := kv
    have h61 : 61 ∉ k := hk61 (k, v) (List.mem_cons_self _ _)
    have hstep : insertLines d (((k, v) :: rest).map lineOf) =
        insertLines (dictInsert d k v) (rest.map lineOf) := by
      simp only [List.map_cons, insertLines, List.foldl_cons, lineOf,
        splitFirstEq_line k v h61]
    have hfr : k ∉ d.map Prod.fst := hfresh (k, v) (List.mem_cons_self _ _)
    rw [hstep, dictInsert_fresh d k v hfr]
    have hnd2 : (rest.map Prod.fst).Nodup := (List.nodup_cons.mp hnd).2
    have hknotin : k ∉ rest.map Prod.fst := (List.nodup_cons.mp hnd).1
    have hfresh2 : ∀ kv ∈ rest, kv.1 ∉ (d ++ [(k, v)]).map Prod.fst := by
      intro kv hkv
      simp only [List.map_append, List.mem_append, List.map_cons,
        List.map_nil, List.mem_singleton]
      rintro (hin | hin)
      · exact hfresh kv (List.mem_cons_of_mem _ hkv) hin
      · exact hknotin (hin ▸ List.mem_map_of_mem Prod.fst hkv)
    have hk612 : ∀ kv ∈ rest, 61 ∉ kv.1 :=
      fun kv hkv => hk61 kv (List.mem_cons_of_mem _ hkv)
    rw [ih (d ++ [(k, v)]) hk612 hfresh2 hnd2]
    simp

theorem insertLines_append (d : ByteProps) (l1 l2 : List (List Nat)) :
    insertLines d (l1 ++ l2) = insertLines (insertLines d l1) l2 := by
  simp [insertLines, List.foldl_append]

theorem asciiDecode_id (l : List Nat) (h : ∀ b ∈ l, b < 128) :
    asciiDecode l = l := by
  unfold asciiDecode
  induction l with
  | nil => rfl
  | cons b t ih =>
    rw [List.map_cons, if_pos (h b (List.mem_cons_self b t)),
      ih (fun x hx => h x (List.mem_cons_of_mem b hx))]

theorem mem_payloadOf (b : Nat) (pairs : ByteProps) (hb : b ∈ payloadOf pairs) :
    b = 13 ∨ b = 10 ∨ b = 61 ∨ ∃ kv ∈ pairs, b ∈ kv.1 ∨ b ∈ kv.2 := by
  induction pairs with
  | nil => simp [payloadOf, buildPayloadLines] at hb
  | cons kv rest ih =>
    have hsplit : payloadOf (kv :: rest) =
        (lineOf kv ++ [13, 10]) ++ payloadOf rest := by
      simp [payloadOf, buildPayloadLines]
    rw [hsplit, List.mem_append] at hb
    rcases hb with hb | hb
    · rw [List.mem_append] at hb
      rcases hb with hb | hb
      · unfold lineOf at hb
        rw [List.mem_append] at hb
        rcases hb with hb | hb
        · exact Or.inr (Or.inr (Or.inr ⟨kv, List.mem_cons_self _ _, Or.inl hb⟩))
        · rcases List.mem_cons.mp hb with hb | hb
          · exact Or.inr (Or.inr (Or.inl hb))
          · exact Or.inr (Or.inr (Or.inr ⟨kv, List.mem_cons_self _ _, Or.inr hb⟩))
      · rcases List.mem_cons.mp hb with hb | hb
        · exact Or.inl hb
        · exact Or.inr (Or.inl (List.mem_singleton.mp hb))
    · rcases ih hb with h | h | h | ⟨kv2, hkv2, h⟩
      · exact Or.inl h
      · exact Or.inr (Or.inl h)
      · exact Or.inr (Or.inr (Or.inl h))
      · exact Or.inr (Or.inr (Or.inr ⟨kv2, List.mem_cons_of_mem _ hkv2, h⟩))

theorem payloadOf_length_ge (kv : List Nat × List Nat) (rest : ByteProps) :
    3 ≤ (payloadOf (kv :: rest)).length := by
  have : payloadOf (kv :: rest) = (lineOf kv ++ [13, 10]) ++ payloadOf rest := by
    simp [payloadOf, buildPayloadLines]
  rw [this]
  simp [lineOf]
  omega

/-- Every successful decode pins down the bytes it consumed: the input splits
into skipped junk, a two-byte big-endian header, and a payload whose length
is exactly the declared total length minus the two header bytes. -/
theorem readOneFrame_some_decomp :
    ∀ (fuel : Nat) (input : List Nat) (pr : ByteProps) (txt : List Nat),
      readOneFrame fuel input = some (pr, txt) →
      ∃ junk b0 b1 payload rest,
        input = junk ++ b0 :: b1 :: (payload ++ rest) ∧
        b0 * 256 + b1 = payload.length + 2 ∧
        3 ≤ b0 * 256 + b1 ∧
        txt = asciiDecode payload ∧
        pr = parseProps txt := by
  intro fuel
  induction fuel with
  | zero => intro input pr txt h; exact absurd h (by simp [readOneFrame])
  | succ n ih =>
    intro input pr txt h
    match input with
    | [] => exact absurd (readOneFrame_nil n ▸ h) (by simp)
    | [b] =>
      rw [show readOneFrame (n + 1) [b] = readOneFrame n [] from rfl,
        readOneFrame_nil n] at h
      exact absurd h (by simp)
    | b0 :: b1 :: rest =>
      rw [show readOneFrame (n + 1) (b0 :: b1 :: rest) =
        (if b0 * 256 + b1 < 3 then readOneFrame n rest
         else if (rest.take (b0 * 256 + b1 - 2)).length < b0 * 256 + b1 - 2 then
           readOneFrame n (rest.drop (b0 * 256 + b1 - 2))
         else
           some (parseProps (asciiDecode (rest.take (b0 * 256 + b1 - 2))),
                 asciiDecode (rest.take (b0 * 256 + b1 - 2)))) from rfl] at h
      by_cases h3 : b0 * 256 + b1 < 3
      · rw [if_pos h3] at h
        obtain ⟨junk, c0, c1, payload, r2, heq, hlen, hge, htxt, hpr⟩ :=
          ih rest pr txt h
        exact ⟨b0 :: b1 :: junk, c0, c1, payload, r2, by simp [heq],
          hlen, hge, htxt, hpr⟩
      · rw [if_neg h3] at h
        by_cases hshort :
            (rest.take (b0 * 256 + b1 - 2)).length < b0 * 256 + b1 - 2
        · rw [if_pos hshort] at h
          obtain ⟨junk, c0, c1, payload, r2, heq, hlen, hge, htxt, hpr⟩ :=
            ih (rest.drop (b0 * 256 + b1 - 2)) pr txt h
          refine ⟨b0 :: b1 :: (rest.take (b0 * 256 + b1 - 2) ++ junk),
            c0, c1, payload, r2, ?_, hlen, hge, htxt, hpr⟩
          have hsplit := List.take_append_drop (b0 * 256 + b1 - 2) rest
          calc b0 :: b1 :: rest
              = b0 :: b1 :: (rest.take (b0 * 256 + b1 - 2) ++
                  rest.drop (b0 * 256 + b1 - 2)) := by rw [hsplit]
            _ = b0 :: b1 :: (rest.take (b0 * 256 + b1 - 2) ++
                  (junk ++ c0 :: c1 :: (payload ++ r2))) := by rw [heq]
            _ = (b0 :: b1 :: (rest.take (b0 * 256 + b1 - 2) ++ junk)) ++
                  c0 :: c1 :: (payload ++ r2) := by simp
        · rw [if_neg hshort, Option.some_inj] at h
          have hlen : (rest.take (b0 * 256 + b1 - 2)).length =
              b0 * 256 + b1 - 2 := by
            have := List.length_take (b0 * 256 + b1 - 2) rest
            omega
          refine ⟨[], b0, b1, rest.take (b0 * 256 + b1 - 2),
            rest.drop (b0 * 256 + b1 - 2), ?_, by omega, by omega, ?_, ?_⟩
          · simp [List.take_append_drop]
          · exact (congrArg Prod.snd h).symm
          · have h1 := congrArg Prod.fst h
            have h2 := congrArg Prod.snd h
            simp only at h1 h2
            rw [← h1, ← h2]

/-- C8.  Length-prefix integrity of `_read_one_frame`: a header whose
declared total length exceeds the bytes that arrive within the read window
yields no frame at all (`none`, not a partial field set), and every frame
that is decoded comes from a contiguous chunk of the input whose payload
length equals the declared total length minus the 2 header bytes, its fields
being exactly the parse of that payload.  (The decoder is a total function,
so it never raises.) -/
theorem sigma_C8 :
    (∀ (fuel b0 b1 : Nat) (rest : List Nat),
      3 ≤ b0 * 256 + b1 →
      rest.length < b0 * 256 + b1 - 2 →
      readOneFrame fuel (b0 :: b1 :: rest) = none)
    ∧ (∀ (fuel : Nat) (input : List Nat) (pr : ByteProps) (txt : List Nat),
      readOneFrame fuel input = some (pr, txt) →
      ∃ junk b0 b1 payload rest,
        input = junk ++ b0 :: b1 :: (payload ++ rest) ∧
        b0 * 256 + b1 = payload.length + 2 ∧
        pr = parseProps (asciiDecode payload)) := by
  constructor
  · intro fuel b0 b1 rest h3 hshort
    cases fuel with
    | zero => rfl
    | succ n =>
      rw [show readOneFrame (n + 1) (b0 :: b1 :: rest) =
        (if b0 * 256 + b1 < 3 then readOneFrame n rest
         else if (rest.take (b0 * 256 + b1 - 2)).length < b0 * 256 + b1 - 2 then
           readOneFrame n (rest.drop (b0 * 256 + b1 - 2))
         else
           some (parseProps (asciiDecode (rest.take (b0 * 256 + b1 - 2))),
                 asciiDecode (rest.take (b0 * 256 + b1 - 2)))) from rfl]
      rw [if_neg (by omega)]
      have htk : (rest.take (b0 * 256 + b1 - 2)).length = rest.length := by
        have := List.length_take (b0 * 256 + b1 - 2) rest
        omega
      rw [if_pos (by omega)]
      have hdrop : rest.drop (b0 * 256 + b1 - 2) = [] :=
        List.drop_eq_nil_of_le (by omega)
      rw [hdrop]
      exact readOneFrame_nil n
  · intro fuel input pr txt h
    obtain ⟨junk, b0, b1, payload, rest, heq, hlen, _, htxt, hpr⟩ :=
      readOneFrame_some_decomp fuel input pr txt h
    exact ⟨junk, b0, b1, payload, rest, heq, hlen, htxt ▸ hpr⟩

/-- Witness for C8: a frame declaring 9 total bytes with only 1 payload byte
available decodes to nothing. -/
theorem sigma_C8_witness : readOneFrame 5 [0, 9, 65] = none :=
  sigma_C8.1 5 0 9 [65] (by omega) (by simp)

/-- C10.  A header declaring a total length below 3 never produces a frame:
the decoder drops the two header bytes and keeps reading within the window,
and every frame it does return has a declared total length of at least 3
(hence a payload of at least 1 byte). -/
theorem sigma_C10 :
    (∀ (n b0 b1 : Nat) (rest : List Nat),
      b0 * 256 + b1 < 3 →
      readOneFrame (n + 1) (b0 :: b1 :: rest) = readOneFrame n rest)
    ∧ (∀ (fuel : Nat) (input : List Nat) (pr : ByteProps) (txt : List Nat),
      readOneFrame fuel input = some (pr, txt) →
      ∃ junk b0 b1 payload rest,
        input = junk ++ b0 :: b1 :: (payload ++ rest) ∧
        3 ≤ b0 * 256 + b1 ∧
        b0 * 256 + b1 = payload.length + 2) := by
  constructor
  · intro n b0 b1 rest hlt
    rw [show readOneFrame (n + 1) (b0 :: b1 :: rest) =
      (if b0 * 256 + b1 < 3 then readOneFrame n rest
       else if (rest.take (b0 * 256 + b1 - 2)).length < b0 * 256 + b1 - 2 then
         readOneFrame n (rest.drop (b0 * 256 + b1 - 2))
       else
         some (parseProps (asciiDecode (rest.take (b0 * 256 + b1 - 2))),
               asciiDecode (rest.take (b0 * 256 + b1 - 2)))) from rfl]
    rw [if_pos hlt]
  · intro fuel input pr txt h
    obtain ⟨junk, b0, b1, payload, rest, heq, hlen, hge, _, _⟩ :=
      readOneFrame_some_decomp fuel input pr txt h
    exact ⟨junk, b0, b1, payload, rest, heq, hge, hlen⟩

/-- Witness for C10: a header declaring total length 2 is discarded and
reading continues on the remaining bytes. -/
theorem sigma_C10_witness :
    readOneFrame 3 [0, 2, 0, 5, 65] = readOneFrame 2 [0, 5, 65] :=
  sigma_C10.1 2 0 2 [0, 5, 65] (by omega)

/-- C7 as stated fails on the empty list of lines: its encoding is the bare
header `[0, 2]`, whose declared total length 2 is below 3, so the decoder
discards it and decodes nothing, instead of reproducing the empty fields
mapping. -/
theorem sigma_C7_counterexample :
    readOneFrame 5 (encodeFrame (payloadOf [])) = none := by decide

/-- C7 (amended to non-empty line lists).  For every non-empty ordered list
of KEY=VALUE pairs whose keys are free of the equals sign, whose keys and
values are CR/LF-free ASCII, whose keys are pairwise distinct and whose
encoded total length fits the 16-bit prefix, decoding the encoded frame
yields exactly the fields mapping of the input pairs (and the decoded text
is the payload itself). -/
theorem sigma_C7_amended (pairs : ByteProps)
    (hne : pairs ≠ [])
    (hnd : (pairs.map Prod.fst).Nodup)
    (hkey : ∀ kv ∈ pairs, 61 ∉ kv.1)
    (hcrlf : ∀ kv ∈ pairs, 13 ∉ kv.1 ∧ 10 ∉ kv.1 ∧ 13 ∉ kv.2 ∧ 10 ∉ kv.2)
    (hascii : ∀ kv ∈ pairs, (∀ b ∈ kv.1, b < 128) ∧ (∀ b ∈ kv.2, b < 128))
    (hlen : (payloadOf pairs).length + 2 ≤ 65535) :
    readOneFrame 1 (encodeFrame (payloadOf pairs)) =
      some (pairs, payloadOf pairs) := by
  obtain ⟨kv0, rest0, rfl⟩ : ∃ kv0 rest0, pairs = kv0 :: rest0 := by
    cases pairs with
    | nil => exact absurd rfl hne
    | cons a b => exact ⟨a, b, rfl⟩
  set pairs := kv0 :: rest0 with hpairs
  set payload := payloadOf pairs with hpayload
  have hplen : 3 ≤ payload.length := payloadOf_length_ge kv0 rest0
  have hdm : (payload.length + 2) / 256 * 256 + (payload.length + 2) % 256 =
      payload.length + 2 := by
    have := Nat.div_add_mod (payload.length + 2) 256
    omega
  have hstep : readOneFrame 1 (encodeFrame payload) =
      (if (payload.length + 2) / 256 * 256 + (payload.length + 2) % 256 < 3
       then readOneFrame 0 payload
       else if (payload.take ((payload.length + 2) / 256 * 256 +
           (payload.length + 2) % 256 - 2)).length <
           (payload.length + 2) / 256 * 256 + (payload.length + 2) % 256 - 2
         then readOneFrame 0 (payload.drop ((payload.length + 2) / 256 * 256 +
           (payload.length + 2) % 256 - 2))
       else
         some (parseProps (asciiDecode (payload.take
             ((payload.length + 2) / 256 * 256 +
               (payload.length + 2) % 256 - 2))),
           asciiDecode (payload.take ((payload.length + 2) / 256 * 256 +
             (payload.length + 2) % 256 - 2)))) := rfl
  rw [hstep, hdm]
  rw [if_neg (by omega)]
  have htake : payload.take (payload.length + 2 - 2) = payload := by
    have : payload.length + 2 - 2 = payload.length := by omega
    rw [this, List.take_length]
  rw [htake, if_neg (by omega)]
  have hdecode : asciiDecode payload = payload := by
    refine asciiDecode_id payload (fun b hb => ?_)
    rcases mem_payloadOf b pairs hb with h | h | h | ⟨kv, hkv, hbkv⟩
    · omega
    · omega
    · omega
    · rcases hbkv with hbk | hbv
      · exact (hascii kv hkv).1 b hbk
      · exact (hascii kv hkv).2 b hbv
  rw [hdecode]
  have hsplit : splitCRLF payload = pairs.map lineOf ++ [[]] := by
    refine splitCRLF_payload (pairs.map lineOf) ?_
    intro ln hln
    obtain ⟨kv, hkv, rfl⟩ := List.mem_map.mp hln
    unfold lineOf
    intro hmem
    rcases List.mem_append.mp hmem with hmem | hmem
    · exact (hcrlf kv hkv).1 hmem
    · rcases List.mem_cons.mp hmem with hmem | hmem
      · omega
      · exact (hcrlf kv hkv).2.2.1 hmem
  have hparse : parseProps payload = pairs := by
    unfold parseProps
    rw [hsplit, insertLines_append]
    have hmain : insertLines [] (pairs.map lineOf) = pairs := by
      have := insertLines_map pairs []
        (fun kv hkv => hkey kv hkv)
        (fun kv _ => by simp)
        hnd
      simpa using this
    rw [hmain]
    simp [insertLines, splitFirstEq]
  rw [hparse]

/-- Witness for C7 (amended): the single line `STATUS=0` round-trips. -/
theorem sigma_C7_amended_witness :
    readOneFrame 1 (encodeFrame (payloadOf [([83, 84, 65, 84, 85, 83], [48])]))
      = some ([([83, 84, 65, 84, 85, 83], [48])],
          payloadOf [([83, 84, 65, 84, 85, 83], [48])]) :=
  sigma_C7_amended [([83, 84, 65, 84, 85, 83], [48])]
    (by simp) (by simp) (by decide) (by decide) (by decide) (by decide)

/-!
Client layer.  Above the codec the client works with the decoded string
dict; `Props` models it as an association list of string fields.  A serial
read attempt either yields a decoded frame or nothing, so an incoming frame
stream is a list of `Option Props`, one entry per `_read_one_frame` call,
and the wait budgets (`first_wait`, `final_wait`) are fuel counters, one
unit per loop iteration.
-/

/-- Decoded frame fields at the client level. -/
abbrev Props := List (String × String)

/-- Python `str(props.get(k) or "")`: the field's value with an absent field
normalised to the empty string (an empty present value is falsy in Python
and also maps to the empty string, the same result). -/
def fieldNorm (p : Props) (k : String) : String := (p.lookup k).getD ""

/-- The normalised STATUS field, as the client reads it. -/
def statusNorm (p : Props) : String := fieldNorm p "STATUS"

/-- Model of `_timeout_is_final`: a frame is final when its TIMEOUT field is
absent, empty, or the string 0. -/
def timeoutIsFinal (p : Props) : Bool :=
  fieldNorm p "TIMEOUT" == "" || fieldNorm p "TIMEOUT" == "0"

/-- A frame answers the outstanding request when its METHOD and SID fields
both equal the request's (absent fields match nothing, as Python's
`props.get(...) == method` is false on `None`). -/
def isMatch (method sid : String) (p : Props) : Bool :=
  p.lookup "METHOD" == some method && p.lookup "SID" == some sid

/-- Phase 1 of `_wait_for_sid`: keep reading until the first frame matching
METHOD+SID, or until the first-wait budget runs out; non-matching frames
are logged and discarded.  Returns the first match and the unread rest of
the stream. -/
def phase1 (method sid : String) :
    Nat → List (Option Props) → Option (Props × List (Option Props))
  | 0, _ => none
  | n + 1, [] => phase1 method sid n []
  | n + 1, o :: rest =>
    match o with
    | none => phase1 method sid n rest
    | some p =>
      if isMatch method sid p then some (p, rest)
      else phase1 method sid n rest

/-- Phase 2 of `_wait_for_sid`: keep reading matching frames, remembering
the last one, until a final frame arrives or the final-wait budget runs
out; returns the last matching frame seen (the first match when nothing
further matched). -/
def driveFinal (method sid : String) :
    Nat → Props → List (Option Props) → Props
  | 0, last, _ => last
  | n + 1, last, [] => driveFinal method sid n last []
  | n + 1, last, o :: rest =>
    match o with
    | none => driveFinal method sid n last rest
    | some p =>
      if isMatch method sid p then
        if timeoutIsFinal p then p else driveFinal method sid n p rest
      else driveFinal method sid n last rest

/-- Model of `_wait_for_sid`: wait for the first matching frame within the
first-wait budget; if its normalised STATUS differs from 0 return it at
once, otherwise drive to finality within the final-wait budget. -/
def waitForSid (method sid : String) (firstFuel finalFuel : Nat)
    (s : List (Option Props)) : Option Props :=
  match phase1 method sid firstFuel s with
  | none => none
  | some fr =>
    if statusNorm fr.1 ≠ "0" then some fr.1
    else some (driveFinal method sid finalFuel fr.1 fr.2)

/-- Does a final matching frame arrive within the given number of read
attempts?  (The window `driveFinal` can actually inspect.) -/
def hasFinalMatchWithin (method sid : String) (fuel : Nat)
    (s : List (Option Props)) : Bool :=
  (s.take fuel).any fun o =>
    match o with
    | some p => isMatch method sid p && timeoutIsFinal p
    | none => false

theorem phase1_nil (method sid : String) :
    ∀ n, phase1 method sid n [] = none
  | 0 => rfl
  | n + 1 => phase1_nil method sid n

theorem phase1_append (method sid : String) :
    ∀ (ff : Nat) (s : List (Option Props)) (f : Props)
      (rest ext : List (Option Props)),
      phase1 method sid ff s = some (f, rest) →
      phase1 method sid ff (s ++ ext) = some (f, rest ++ ext) := by
  intro ff
  induction ff with
  | zero => intro s f rest ext h; exact absurd h (by simp [phase1])
  | succ n ih =>
    intro s f rest ext h
    cases s with
    | nil => exact absurd (phase1_nil method sid (n + 1) ▸ h) (by simp)
    | cons o s2 =>
      cases o with
      | none => exact ih s2 f rest ext h
      | some p =>
        by_cases hm : isMatch method sid p
        · rw [show phase1 method sid (n + 1) (some p :: s2) =
            (if isMatch method sid p then some (p, s2)
             else phase1 method sid n s2) from rfl, if_pos hm] at h
          obtain ⟨rfl, rfl⟩ := Prod.mk.inj (Option.some_inj.mp h)
          rw [show phase1 method sid (n + 1) ((some p :: s2) ++ ext) =
            (if isMatch method sid p then some (p, s2 ++ ext)
             else phase1 method sid n (s2 ++ ext)) from rfl, if_pos hm]
        · rw [show phase1 method sid (n + 1) (some p :: s2) =
            (if isMatch method sid p then some (p, s2)
             else phase1 method sid n s2) from rfl, if_neg hm] at h
          rw [show phase1 method sid (n + 1) ((some p :: s2) ++ ext) =
            (if isMatch method sid p then some (p, s2 ++ ext)
             else phase1 method sid n (s2 ++ ext)) from rfl, if_neg hm]
          exact ih s2 f rest ext h

theorem driveFinal_final (method sid : String) :
    ∀ (fuel : Nat) (last : Props) (s : List (Option Props)),
      hasFinalMatchWithin method sid fuel s = true →
      timeoutIsFinal (driveFinal method sid fuel last s) = true := by
  intro fuel
  induction fuel with
  | zero => intro last s h; exact absurd h (by simp [hasFinalMatchWithin])
  | succ n ih =>
    intro last s h
    cases s with
    | nil => exact absurd h (by simp [hasFinalMatchWithin])
    | cons o rest =>
      cases o with
      | none =>
        have h2 : hasFinalMatchWithin method sid n rest = true := by
          simpa [hasFinalMatchWithin] using h
        exact ih last rest h2
      | some p =>
        have hsplit : hasFinalMatchWithin method sid (n + 1) (some p :: rest) =
            ((isMatch method sid p && timeoutIsFinal p) ||
             hasFinalMatchWithin method sid n rest) := by
          simp [hasFinalMatchWithin]
        rw [hsplit] at h
        rcases Bool.or_eq_true_iff.mp h with hfirst | hrest
        · rw [Bool.and_eq_true] at hfirst
          obtain ⟨hm, hf⟩ := hfirst
          rw [show driveFinal method sid (n + 1) last (some p :: rest) =
            (if isMatch method sid p then
              if timeoutIsFinal p then p
              else driveFinal method sid n p rest
            else driveFinal method sid n last rest) from rfl,
            if_pos hm, if_pos hf]
          exact hf
        · rw [show driveFinal method sid (n + 1) last (some p :: rest) =
            (if isMatch method sid p then
              if timeoutIsFinal p then p
              else driveFinal method sid n p rest
            else driveFinal method sid n last rest) from rfl]
          by_cases hm : isMatch method sid p
          · by_cases hf : timeoutIsFinal p
            · rw [if_pos hm, if_pos hf]; exact hf
            · rw [if_pos hm, if_neg hf]; exact ih p rest hrest
          · rw [if_neg hm]; exact ih last rest hrest

/-- C2 as stated fails on the code: the claim allows an immediate return
only when STATUS is present and nonzero, but `_wait_for_sid` normalises an
absent STATUS to the empty string, which also differs from 0, so a first
matching frame with no STATUS field at all is returned immediately even
though it is not final and a final frame follows in the stream. -/
theorem sigma_C2_counterexample :
    waitForSid "PURCHASE" "S1" 2 2
        [some [("METHOD", "PURCHASE"), ("SID", "S1"), ("TIMEOUT", "5")],
         some [("METHOD", "PURCHASE"), ("SID", "S1"), ("STATUS", "0"),
               ("TIMEOUT", "0")]] =
      some [("METHOD", "PURCHASE"), ("SID", "S1"), ("TIMEOUT", "5")] ∧
    ([("METHOD", "PURCHASE"), ("SID", "S1"),
      ("TIMEOUT", "5")] : Props).lookup "STATUS" = none ∧
    timeoutIsFinal [("METHOD", "PURCHASE"), ("SID", "S1"),
      ("TIMEOUT", "5")] = false := by
  refine ⟨?_, by decide, by decide⟩
  decide

/-- C2 (amended).  `_wait_for_sid` returns the first matching frame
immediately — independently of the final-wait budget and of anything that
might still arrive on the stream — if and only if the frame's normalised
STATUS (absent mapped to the empty string) differs from the string 0;
when the normalised STATUS is exactly 0 it instead enters the
drive-to-finality phase on the remaining stream. -/
theorem sigma_C2_amended (method sid : String) (ff : Nat) (f : Props)
    (rest s : List (Option Props))
    (h : phase1 method sid ff s = some (f, rest)) :
    (statusNorm f ≠ "0" →
      ∀ (fw : Nat) (ext : List (Option Props)),
        waitForSid method sid ff fw (s ++ ext) = some f)
    ∧ (statusNorm f = "0" →
      ∀ fw : Nat,
        waitForSid method sid ff fw s =
          some (driveFinal method sid fw f rest)) := by
  constructor
  · intro hst fw ext
    unfold waitForSid
    rw [phase1_append method sid ff s f rest ext h]
    simp [hst]
  · intro hst fw
    unfold waitForSid
    rw [h]
    simp [hst]

/-- Witness for C2 (amended): a first frame with nonzero STATUS is returned
unchanged for any final budget and any stream continuation. -/
theorem sigma_C2_amended_witness :
    waitForSid "PURCHASE" "W2" 1 7
        ([some [("METHOD", "PURCHASE"), ("SID", "W2"), ("STATUS", "5")]] ++
          [some [("METHOD", "PURCHASE"), ("SID", "W2"), ("STATUS", "0"),
                 ("TIMEOUT", "0")]]) =
      some [("METHOD", "PURCHASE"), ("SID", "W2"), ("STATUS", "5")] :=
  (sigma_C2_amended "PURCHASE" "W2" 1
      [("METHOD", "PURCHASE"), ("SID", "W2"), ("STATUS", "5")] []
      [some [("METHOD", "PURCHASE"), ("SID", "W2"), ("STATUS", "5")]]
      (by decide)).1 (by decide) 7
    [some [("METHOD", "PURCHASE"), ("SID", "W2"), ("STATUS", "0"),
           ("TIMEOUT", "0")]]

/-- C3 as stated fails on the code: when the final-wait budget runs out
before a final frame arrives, `_wait_for_sid` returns the last matching
frame even though it is non-final and the first match carried STATUS 0 —
not an immediate-rejection case. -/
theorem sigma_C3_counterexample :
    waitForSid "PURCHASE" "S3" 1 3
        [some [("METHOD", "PURCHASE"), ("SID", "S3"), ("STATUS", "0"),
               ("TIMEOUT", "30")]] =
      some [("METHOD", "PURCHASE"), ("SID", "S3"), ("STATUS", "0"),
            ("TIMEOUT", "30")] ∧
    timeoutIsFinal [("METHOD", "PURCHASE"), ("SID", "S3"), ("STATUS", "0"),
      ("TIMEOUT", "30")] = false ∧
    statusNorm [("METHOD", "PURCHASE"), ("SID", "S3"), ("STATUS", "0"),
      ("TIMEOUT", "30")] = "0" := by
  refine ⟨?_, by decide, by decide⟩
  decide

/-- C3 (amended).  When `_wait_for_sid` returns a non-final frame, either
the very first matching frame had a normalised STATUS other than 0
(immediate rejection, the frame is returned as-is), or the first match had
STATUS 0 and no final matching frame arrived within the final-wait budget
(budget exhaustion); in every other case the returned frame is final. -/
theorem sigma_C3_amended (method sid : String) (ff fw : Nat)
    (s : List (Option Props)) (g : Props)
    (hg : waitForSid method sid ff fw s = some g)
    (hnf : timeoutIsFinal g = false) :
    ∃ f rest, phase1 method sid ff s = some (f, rest) ∧
      ((statusNorm f ≠ "0" ∧ g = f) ∨
       (statusNorm f = "0" ∧
          hasFinalMatchWithin method sid fw rest = false)) := by
  unfold waitForSid at hg
  cases hp : phase1 method sid ff s with
  | none => rw [hp] at hg; exact absurd hg (by simp)
  | some fr =>
    obtain ⟨f, rest⟩ := fr
    rw [hp] at hg
    have hg2 : (if statusNorm f ≠ "0" then some f
        else some (driveFinal method sid fw f rest)) = some g := hg
    by_cases hst : statusNorm f = "0"
    · rw [if_neg (by simp [hst])] at hg2
      refine ⟨f, rest, rfl, Or.inr ⟨hst, ?_⟩⟩
      by_cases hhas : hasFinalMatchWithin method sid fw rest = true
      · have := driveFinal_final method sid fw f rest hhas
        rw [Option.some_inj.mp hg2] at this
        rw [hnf] at this
        exact absurd this (by simp)
      · simpa using hhas
    · rw [if_pos hst] at hg2
      exact ⟨f, rest, rfl, Or.inl ⟨hst, (Option.some_inj.mp hg2).symm⟩⟩

/-- Witness for C3 (amended), instantiated at a budget-exhaustion run. -/
theorem sigma_C3_amended_witness :
    ∃ f rest, phase1 "PURCHASE" "W3" 1
        [some [("METHOD", "PURCHASE"), ("SID", "W3"), ("STATUS", "0"),
               ("TIMEOUT", "9")]] = some (f, rest) ∧
      ((statusNorm f ≠ "0" ∧
          [("METHOD", "PURCHASE"), ("SID", "W3"), ("STATUS", "0"),
           ("TIMEOUT", "9")] = f) ∨
       (statusNorm f = "0" ∧
          hasFinalMatchWithin "PURCHASE" "W3" 2 rest = false)) :=
  sigma_C3_amended "PURCHASE" "W3" 1 2
    [some [("METHOD", "PURCHASE"), ("SID", "W3"), ("STATUS", "0"),
           ("TIMEOUT", "9")]]
    [("METHOD", "PURCHASE"), ("SID", "W3"), ("STATUS", "0"),
     ("TIMEOUT", "9")]
    (by decide) (by decide)

/-!
Idle recovery (`ensure_idle`).  Its control flow depends only on the
successive `get_status_final` results, so the device is modelled as a
script: a list of `Option Props`, one entry per GET_STATUS issued (`none`
when no response arrives in time; an exhausted script also reads as no
response).  The responses to COMPLETE_TX / CANCEL_TX / REVERSAL are
discarded by the source, so they do not appear in the script.  The shared
wall-clock deadline is a fuel counter threaded through the outer loop and
the inner poll loop, one unit per iteration.  The trace records every
request method sent, in order. -/

/-- Outcome of `ensure_idle`: the Boolean the source returns, or the
uncaught `AttributeError` the source would raise when a later outer-loop
iteration starts from a `None` status (line 437 calls `st.get` without a
guard). -/
inductive EnsureRes
  | ok (b : Bool)
  | crash
deriving DecidableEq

/-- One `get_status_final` against the script: its response and the rest of
the script. -/
def getSt (s : List (Option Props)) : Option Props × List (Option Props) :=
  (s.head?.join, s.tail)

/-- Model of `_is_idle`: a truthy (present, non-empty) status dict whose
normalised STATUS equals 0. -/
def isIdle : Option Props → Bool
  | none => false
  | some p => !p.isEmpty && statusNorm p == "0"

/-- The poll loop inside the STATUS=20 recovery branch: query status until
idle or the deadline; returns the outcome, the GET_STATUS trace, and the
unconsumed script. -/
def pollIdle : Nat → List (Option Props) →
    Bool × List String × List (Option Props)
  | 0, s => (false, [], s)
  | n + 1, s =>
    let g := getSt s
    if isIdle g.1 then (true, ["GET_STATUS"], g.2)
    else
      let r := pollIdle n g.2
      (r.1, "GET_STATUS" :: r.2.1, r.2.2)

/-- The outer recovery loop of `ensure_idle`, entered with the last non-idle
status frame `p`. -/
def ensureIdleLoop : Nat → Props → List (Option Props) →
    EnsureRes × List String
  | 0, _, _ => (.ok false, [])
  | n + 1, p, s =>
    if statusNorm p == "20" then
      let r := pollIdle n s
      if r.1 then (.ok true, "COMPLETE_TX" :: "CANCEL_TX" :: r.2.1)
      else
        let g := getSt r.2.2
        ((if isIdle g.1 then .ok true else .ok false),
          "COMPLETE_TX" :: "CANCEL_TX" :: r.2.1 ++ ["REVERSAL", "GET_STATUS"])
    else
      let g := getSt s
      if isIdle g.1 then (.ok true, ["GET_STATUS"])
      else
        match g.1 with
        | some p2 =>
          let r := ensureIdleLoop n p2 g.2
          (r.1, "GET_STATUS" :: r.2)
        | none =>
          match n with
          | 0 => (.ok false, ["GET_STATUS"])
          | _ + 1 => (.crash, ["GET_STATUS"])

/-- Model of `ensure_idle`: initial status query, early returns for no
response / already idle, then the recovery loop. -/
def ensureIdle (fuel : Nat) (s : List (Option Props)) :
    EnsureRes × List String :=
  let g := getSt s
  match g.1 with
  | none => (.ok false, ["GET_STATUS"])
  | some p =>
    if p.isEmpty then (.ok false, ["GET_STATUS"])
    else if statusNorm p == "0" then (.ok true, ["GET_STATUS"])
    else
      let r := ensureIdleLoop fuel p g.2
      (r.1, "GET_STATUS" :: r.2)

theorem pollIdle_trace (n : Nat) (s : List (Option Props)) :
    ∃ j, (pollIdle n s).2.1 = List.replicate j "GET_STATUS" := by
  induction n generalizing s with
  | zero => exact ⟨0, rfl⟩
  | succ n ih =>
    by_cases hi : isIdle (getSt s).1
    · exact ⟨1, by simp [pollIdle, hi]⟩
    · obtain ⟨j, hj⟩ := ih (getSt s).2
      exact ⟨j + 1, by simp [pollIdle, hi, hj, List.replicate_succ]⟩

/-- The shape every `ensureIdleLoop` trace takes: some GET_STATUS polling,
then optionally the COMPLETE_TX/CANCEL_TX pair followed by GET_STATUS
polling, then optionally the last-resort REVERSAL with one final
GET_STATUS. -/
theorem ensureIdleLoop_trace (n : Nat) (p : Props)
    (s : List (Option Props)) :
    ∃ k m tail,
      ((ensureIdleLoop n p s).2 = List.replicate k "GET_STATUS" ∧
        tail = ([] : List String) ∧ m = 0) ∨
      ((ensureIdleLoop n p s).2 = List.replicate k "GET_STATUS" ++
          "COMPLETE_TX" :: "CANCEL_TX" ::
            (List.replicate m "GET_STATUS" ++ tail) ∧
        (tail = [] ∨ tail = ["REVERSAL", "GET_STATUS"])) := by
  induction n generalizing p s with
  | zero => exact ⟨0, 0, [], Or.inl ⟨rfl, rfl, rfl⟩⟩
  | succ n ih =>
    by_cases h20 : statusNorm p == "20"
    · obtain ⟨j, hj⟩ := pollIdle_trace n s
      by_cases hr : (pollIdle n s).1
      · refine ⟨0, j, [], Or.inr ⟨?_, Or.inl rfl⟩⟩
        simp [ensureIdleLoop, h20, hr, hj]
      · refine ⟨0, j, ["REVERSAL", "GET_STATUS"], Or.inr ⟨?_, Or.inr rfl⟩⟩
        simp [ensureIdleLoop, h20, hr, hj]
    · by_cases hi : isIdle (getSt s).1
      · exact ⟨1, 0, [], Or.inl ⟨by simp [ensureIdleLoop, h20, hi], rfl, rfl⟩⟩
      · cases hg : (getSt s).1 with
        | some p2 =>
          rw [hg] at hi
          obtain ⟨k, m, tail, hsh⟩ := ih p2 (getSt s).2
          rcases hsh with ⟨htr, htl, hm⟩ | ⟨htr, htl⟩
          · refine ⟨k + 1, 0, [], Or.inl ⟨?_, rfl, rfl⟩⟩
            simp [ensureIdleLoop, h20, hi, hg, htr, List.replicate_succ]
          · refine ⟨k + 1, m, tail, Or.inr ⟨?_, htl⟩⟩
            simp [ensureIdleLoop, h20, hi, hg, htr, List.replicate_succ]
        | none =>
          cases n with
          | zero =>
            exact ⟨1, 0, [], Or.inl
              ⟨by simp [ensureIdleLoop, h20, hi, hg, isIdle], rfl, rfl⟩⟩
          | succ n2 =>
            exact ⟨1, 0, [], Or.inl
              ⟨by simp [ensureIdleLoop, h20, hi, hg, isIdle], rfl, rfl⟩⟩

/-- The same shape for the full `ensureIdle` trace (the leading GET_STATUS
of the initial query included). -/
theorem ensureIdle_trace (fuel : Nat) (s : List (Option Props)) :
    ∃ k m tail,
      ((ensureIdle fuel s).2 = List.replicate k "GET_STATUS" ∧
        tail = ([] : List String) ∧ m = 0) ∨
      ((ensureIdle fuel s).2 = List.replicate k "GET_STATUS" ++
          "COMPLETE_TX" :: "CANCEL_TX" ::
            (List.replicate m "GET_STATUS" ++ tail) ∧
        (tail = [] ∨ tail = ["REVERSAL", "GET_STATUS"])) := by
  cases hg : (getSt s).1 with
  | none => exact ⟨1, 0, [], Or.inl ⟨by simp [ensureIdle, hg], rfl, rfl⟩⟩
  | some p =>
    by_cases hemp : p.isEmpty
    · exact ⟨1, 0, [], Or.inl ⟨by simp [ensureIdle, hg, hemp], rfl, rfl⟩⟩
    · by_cases h0 : statusNorm p == "0"
      · exact ⟨1, 0, [], Or.inl ⟨by simp [ensureIdle, hg, hemp, h0], rfl, rfl⟩⟩
      · obtain ⟨k, m, tail, hsh⟩ := ensureIdleLoop_trace fuel p (getSt s).2
        rcases hsh with ⟨htr, htl, hm⟩ | ⟨htr, htl⟩
        · refine ⟨k + 1, 0, [], Or.inl ⟨?_, rfl, rfl⟩⟩
          simp [ensureIdle, hg, hemp, h0, htr, List.replicate_succ]
        · refine ⟨k + 1, m, tail, Or.inr ⟨?_, htl⟩⟩
          simp [ensureIdle, hg, hemp, h0, htr, List.replicate_succ]

theorem ensureIdle_trace_mem (fuel : Nat) (s : List (Option Props)) :
    ∀ x ∈ (ensureIdle fuel s).2,
      x = "GET_STATUS" ∨ x = "COMPLETE_TX" ∨ x = "CANCEL_TX" ∨
        x = "REVERSAL" := by
  intro x hx
  obtain ⟨k, m, tail, hsh⟩ := ensureIdle_trace fuel s
  rcases hsh with ⟨htr, _, _⟩ | ⟨htr, htl⟩
  · rw [htr] at hx
    exact Or.inl (List.eq_of_mem_replicate hx)
  · rw [htr] at hx
    rcases List.mem_append.mp hx with hx | hx
    · exact Or.inl (List.eq_of_mem_replicate hx)
    · rcases List.mem_cons.mp hx with hx | hx
      · exact Or.inr (Or.inl hx)
      · rcases List.mem_cons.mp hx with hx | hx
        · exact Or.inr (Or.inr (Or.inl hx))
        · rcases List.mem_append.mp hx with hx | hx
          · exact Or.inl (List.eq_of_mem_replicate hx)
          · rcases htl with rfl | rfl
            · simp at hx
            · rcases List.mem_cons.mp hx with hx | hx
              · exact Or.inr (Or.inr (Or.inr hx))
              · exact Or.inl (by simpa using hx)

/-- Ordering of the methods inside a prefix-closed list of the recovery
shape: helper for C4. -/
theorem trace_order_of_shape (tr : List String)
    (hsh : ∃ k m tail,
      (tr = List.replicate k "GET_STATUS" ∧ tail = ([] : List String) ∧ m = 0) ∨
      (tr = List.replicate k "GET_STATUS" ++
          "COMPLETE_TX" :: "CANCEL_TX" ::
            (List.replicate m "GET_STATUS" ++ tail) ∧
        (tail = [] ∨ tail = ["REVERSAL", "GET_STATUS"]))) :
    ∀ p, p <+: tr →
      ("CANCEL_TX" ∈ p → "COMPLETE_TX" ∈ p) ∧
      ("REVERSAL" ∈ p → "COMPLETE_TX" ∈ p ∧ "CANCEL_TX" ∈ p) := by
  obtain ⟨k, m, tail, hsh⟩ := hsh
  rcases hsh with ⟨rfl, _, _⟩ | ⟨rfl, htl⟩
  · intro p hp
    have hall : ∀ x ∈ p, x = "GET_STATUS" := by
      intro x hx
      exact List.eq_of_mem_replicate (hp.subset hx)
    constructor
    · intro hc; exact absurd (hall _ hc) (by decide)
    · intro hr; exact absurd (hall _ hr) (by decide)
  · intro p hp
    induction k generalizing p with
    | zero =>
      simp only [List.replicate_zero, List.nil_append] at hp
      cases p with
      | nil => simp
      | cons a p1 =>
        obtain ⟨t, ht⟩ := hp
        rw [List.cons_append] at ht
        obtain ⟨rfl, ht1⟩ := List.cons.inj ht
        have hp1 : p1 <+: "CANCEL_TX" :: (List.replicate m "GET_STATUS" ++ tail) :=
          ⟨t, ht1⟩
        constructor
        · intro _; exact List.mem_cons_self _ _
        · intro hr
          have hrp1 : "REVERSAL" ∈ p1 := by
            rcases List.mem_cons.mp hr with he | he
            · exact absurd he.symm (by decide)
            · exact he
          cases p1 with
          | nil => simp at hrp1
          | cons b p2 =>
            obtain ⟨t2, ht2⟩ := hp1
            rw [List.cons_append] at ht2
            obtain ⟨rfl, _⟩ := List.cons.inj ht2
            exact ⟨List.mem_cons_self _ _,
              List.mem_cons_of_mem _ (List.mem_cons_self _ _)⟩
    | succ k2 ihk =>
      cases p with
      | nil => simp
      | cons a p1 =>
        rw [List.replicate_succ, List.cons_append] at hp
        obtain ⟨t, ht⟩ := hp
        rw [List.cons_append] at ht
        obtain ⟨rfl, ht1⟩ := List.cons.inj ht
        have hrec := ihk p1 ⟨t, ht1⟩
        constructor
        · intro hc
          have hc1 : "CANCEL_TX" ∈ p1 := by
            rcases List.mem_cons.mp hc with he | he
            · exact absurd he.symm (by decide)
            · exact he
          exact List.mem_cons_of_mem _ (hrec.1 hc1)
        · intro hr
          have hr1 : "REVERSAL" ∈ p1 := by
            rcases List.mem_cons.mp hr with he | he
            · exact absurd he.symm (by decide)
            · exact he
          exact ⟨List.mem_cons_of_mem _ ((hrec.2 hr1).1),
            List.mem_cons_of_mem _ ((hrec.2 hr1).2)⟩

/-- C4.  For every deadline budget and device script: the requests
`ensure_idle` sends form a GET_STATUS polling run, optionally followed by
the COMPLETE_TX, CANCEL_TX pair (in that order, adjacent), further
GET_STATUS polls, and optionally the last-resort REVERSAL with one final
GET_STATUS; consequently in every prefix of the trace CANCEL_TX is
preceded by COMPLETE_TX and REVERSAL by both, and when the first status
response carries STATUS=20 (with at least one loop iteration left) the
recovery pair is sent immediately after the initial GET_STATUS. -/
theorem sigma_C4 (fuel : Nat) (s : List (Option Props)) :
    (∃ k m tail,
      ((ensureIdle fuel s).2 = List.replicate k "GET_STATUS" ∧
        tail = ([] : List String) ∧ m = 0) ∨
      ((ensureIdle fuel s).2 = List.replicate k "GET_STATUS" ++
          "COMPLETE_TX" :: "CANCEL_TX" ::
            (List.replicate m "GET_STATUS" ++ tail) ∧
        (tail = [] ∨ tail = ["REVERSAL", "GET_STATUS"])))
    ∧ (∀ p, p <+: (ensureIdle fuel s).2 →
      ("CANCEL_TX" ∈ p → "COMPLETE_TX" ∈ p) ∧
      ("REVERSAL" ∈ p → "COMPLETE_TX" ∈ p ∧ "CANCEL_TX" ∈ p))
    ∧ (∀ (p : Props) (rest : List (Option Props)),
      s = some p :: rest → statusNorm p = "20" → 1 ≤ fuel →
      ["GET_STATUS", "COMPLETE_TX", "CANCEL_TX"] <+: (ensureIdle fuel s).2) := by
  refine ⟨ensureIdle_trace fuel s,
    trace_order_of_shape _ (ensureIdle_trace fuel s), ?_⟩
  rintro p rest rfl h20 hfuel
  obtain ⟨n, rfl⟩ : ∃ n, fuel = n + 1 := ⟨fuel - 1, by omega⟩
  have hne2 : ¬(p = []) := by
    intro he; rw [he] at h20; exact absurd h20 (by decide)
  have h0 : ¬(statusNorm p = "0") := by rw [h20]; decide
  have h20b : (statusNorm p == "20") = true := by simp [h20]
  have hcx : ∃ t, (ensureIdleLoop (n + 1) p rest).2 =
      "COMPLETE_TX" :: "CANCEL_TX" :: t := by
    by_cases hr : (pollIdle n rest).1
    · exact ⟨(pollIdle n rest).2.1, by simp [ensureIdleLoop, h20b, hr]⟩
    · exact ⟨(pollIdle n rest).2.1 ++ ["REVERSAL", "GET_STATUS"],
        by simp [ensureIdleLoop, h20b, hr]⟩
  have htr : (ensureIdle (n + 1) (some p :: rest)).2 =
      "GET_STATUS" :: (ensureIdleLoop (n + 1) p rest).2 := by
    simp [ensureIdle, getSt, List.isEmpty_iff, hne2, h0]
  rw [htr]
  obtain ⟨t, ht⟩ := hcx
  rw [ht]
  exact ⟨t, rfl⟩

/-- Witness for C4: a device stuck at STATUS=20 that turns idle after the
recovery pair gives the trace GET_STATUS, COMPLETE_TX, CANCEL_TX,
GET_STATUS. -/
theorem sigma_C4_witness :
    ["GET_STATUS", "COMPLETE_TX", "CANCEL_TX"] <+:
      (ensureIdle 2 [some [("STATUS", "20")], some [("STATUS", "0")]]).2 :=
  (sigma_C4 2 [some [("STATUS", "20")], some [("STATUS", "0")]]).2.2
    [("STATUS", "20")] [some [("STATUS", "0")]] rfl (by decide) (by omega)

/-!
Purchase operation.  `purchase` first runs `ensure_idle` (its GET_STATUS
script is a parameter), then sends PURCHASE and waits via `_wait_for_sid`
on the purchase frame stream, then best-effort re-runs `ensure_idle` (whose
script is another parameter; its outcome is swallowed).  The freshly
generated UUID session id is a parameter of the model.  The trace lists the
methods sent, in order.  Exceptions are modelled by their Python class plus
the message string they are constructed with — the source attaches nothing
else to them. -/

/-- The Python exception classes the modelled paths can raise. -/
inductive ExcClass
  | sigmaError
  | sigmaTimeout
  | attributeError
deriving DecidableEq

/-- A raised Python exception: its class and its message string. -/
structure PyExc where
  cls : ExcClass
  msg : String
deriving DecidableEq

/-- The dict `purchase` returns, as a value object. -/
structure PurchaseResult where
  approved : Bool
  status : String
  stage : String
  timeout : String
  raw : Props
deriving DecidableEq

deriving instance DecidableEq for Except

/-- Model of `SigmaIppClient.purchase` (control flow and classification;
the request line construction is modelled separately by
`purchaseRequestLines`). -/
def purchase (idleFuel : Nat) (idleSts : List (Option Props)) (sid : String)
    (ff fw : Nat) (stream : List (Option Props))
    (postFuel : Nat) (postSts : List (Option Props)) :
    Except PyExc PurchaseResult × List String :=
  match ensureIdle idleFuel idleSts with
  | (.crash, tr) =>
    (.error ⟨.attributeError, "NoneType object has no attribute get"⟩, tr)
  | (.ok false, tr) =>
    (.error ⟨.sigmaTimeout, "Terminal not idle before purchase"⟩, tr)
  | (.ok true, tr) =>
    match waitForSid "PURCHASE" sid ff fw stream with
    | none =>
      (.error ⟨.sigmaTimeout, "No PURCHASE response within timeout"⟩,
        tr ++ ["PURCHASE"])
    | some f =>
      (.ok
        { approved := statusNorm f == "0"
          status := statusNorm f
          stage := fieldNorm f "STAGE"
          timeout := fieldNorm f "TIMEOUT"
          raw := f },
        tr ++ "PURCHASE" :: (ensureIdle postFuel postSts).2)

/-- C1 as stated fails on the code: two final frames carrying the same
explicit APPROVAL marker classify differently — approved follows the bare
STATUS code in both runs, so a present marker does not determine the
approved flag (the source computes `approved = (status == "0")` and never
reads APPROVAL, RESULT or APPROVED). -/
theorem sigma_C1_counterexample :
    (purchase 1 [some [("STATUS", "0")]] "SA" 1 1
        [some [("METHOD", "PURCHASE"), ("SID", "SA"), ("STATUS", "0"),
               ("APPROVAL", "OK1"), ("TIMEOUT", "0")]] 0 []).1 =
      Except.ok ⟨true, "0", "", "0",
        [("METHOD", "PURCHASE"), ("SID", "SA"), ("STATUS", "0"),
         ("APPROVAL", "OK1"), ("TIMEOUT", "0")]⟩ ∧
    (purchase 1 [some [("STATUS", "0")]] "SA" 1 1
        [some [("METHOD", "PURCHASE"), ("SID", "SA"), ("STATUS", "5"),
               ("APPROVAL", "OK1"), ("TIMEOUT", "0")]] 0 []).1 =
      Except.ok ⟨false, "5", "", "0",
        [("METHOD", "PURCHASE"), ("SID", "SA"), ("STATUS", "5"),
         ("APPROVAL", "OK1"), ("TIMEOUT", "0")]⟩ ∧
    ([("METHOD", "PURCHASE"), ("SID", "SA"), ("STATUS", "0"),
      ("APPROVAL", "OK1"), ("TIMEOUT", "0")] : Props).lookup "APPROVAL" =
      some "OK1" ∧
    ([("METHOD", "PURCHASE"), ("SID", "SA"), ("STATUS", "5"),
      ("APPROVAL", "OK1"), ("TIMEOUT", "0")] : Props).lookup "APPROVAL" =
      some "OK1" := by
  refine ⟨?_, ?_, by decide, by decide⟩ <;> decide

/-- C1 (amended).  Every result a purchase call returns has its approved
flag computed solely as (normalised STATUS == 0) of the returned frame;
the STATUS, STAGE and TIMEOUT fields of the result are the normalised
fields of that frame, and no approval marker takes part. -/
theorem sigma_C1_amended (idleFuel : Nat) (idleSts : List (Option Props))
    (sid : String) (ff fw : Nat) (stream : List (Option Props))
    (postFuel : Nat) (postSts : List (Option Props))
    (r : PurchaseResult) (tr : List String)
    (h : purchase idleFuel idleSts sid ff fw stream postFuel postSts =
      (.ok r, tr)) :
    r.approved = (r.status == "0") ∧ r.status = statusNorm r.raw ∧
      r.stage = fieldNorm r.raw "STAGE" ∧
      r.timeout = fieldNorm r.raw "TIMEOUT" := by
  unfold purchase at h
  rcases he : ensureIdle idleFuel idleSts with ⟨res, tr1⟩
  rw [he] at h
  cases res with
  | crash => simp at h
  | ok b =>
    cases b with
    | false => simp at h
    | true =>
      cases hw : waitForSid "PURCHASE" sid ff fw stream with
      | none => rw [hw] at h; simp at h
      | some f =>
        rw [hw] at h
        have h1 := congrArg Prod.fst h
        simp only at h1
        obtain rfl := (Except.ok.inj h1).symm
        exact ⟨rfl, rfl, rfl, rfl⟩

/-- Witness for C1 (amended), instantiated at an approved concrete run. -/
theorem sigma_C1_amended_witness :
    (⟨true, "0", "", "0",
        [("METHOD", "PURCHASE"), ("SID", "SB"), ("STATUS", "0"),
         ("TIMEOUT", "0")]⟩ : PurchaseResult).approved =
      ((⟨true, "0", "", "0",
        [("METHOD", "PURCHASE"), ("SID", "SB"), ("STATUS", "0"),
         ("TIMEOUT", "0")]⟩ : PurchaseResult).status == "0") ∧
    (⟨true, "0", "", "0",
        [("METHOD", "PURCHASE"), ("SID", "SB"), ("STATUS", "0"),
         ("TIMEOUT", "0")]⟩ : PurchaseResult).status =
      statusNorm (⟨true, "0", "", "0",
        [("METHOD", "PURCHASE"), ("SID", "SB"), ("STATUS", "0"),
         ("TIMEOUT", "0")]⟩ : PurchaseResult).raw ∧
    (⟨true, "0", "", "0",
        [("METHOD", "PURCHASE"), ("SID", "SB"), ("STATUS", "0"),
         ("TIMEOUT", "0")]⟩ : PurchaseResult).stage =
      fieldNorm (⟨true, "0", "", "0",
        [("METHOD", "PURCHASE"), ("SID", "SB"), ("STATUS", "0"),
         ("TIMEOUT", "0")]⟩ : PurchaseResult).raw "STAGE" ∧
    (⟨true, "0", "", "0",
        [("METHOD", "PURCHASE"), ("SID", "SB"), ("STATUS", "0"),
         ("TIMEOUT", "0")]⟩ : PurchaseResult).timeout =
      fieldNorm (⟨true, "0", "", "0",
        [("METHOD", "PURCHASE"), ("SID", "SB"), ("STATUS", "0"),
         ("TIMEOUT", "0")]⟩ : PurchaseResult).raw "TIMEOUT" :=
  sigma_C1_amended 1 [some [("STATUS", "0")]] "SB" 1 1
    [some [("METHOD", "PURCHASE"), ("SID", "SB"), ("STATUS", "0"),
           ("TIMEOUT", "0")]] 0 []
    ⟨true, "0", "", "0",
      [("METHOD", "PURCHASE"), ("SID", "SB"), ("STATUS", "0"),
       ("TIMEOUT", "0")]⟩
    ["GET_STATUS", "PURCHASE", "GET_STATUS"] (by decide)

/-- C5 as stated fails on the code: when `ensure_idle` fails before the
purchase, the source raises `SigmaTimeout("Terminal not idle before
purchase")` — the same exception class as the genuine response timeout —
so the two outcomes are distinguishable only by message text, not as
distinct outcome types.  (The no-PURCHASE-sent half of the claim does
hold: see the trace conjunct.) -/
theorem sigma_C5_counterexample :
    (purchase 1 [none] "SD" 1 1 [] 0 []).1 =
      Except.error ⟨.sigmaTimeout, "Terminal not idle before purchase"⟩ ∧
    (purchase 1 [some [("STATUS", "0")]] "SD" 1 1 [none] 0 []).1 =
      Except.error ⟨.sigmaTimeout, "No PURCHASE response within timeout"⟩ ∧
    (⟨ExcClass.sigmaTimeout, "Terminal not idle before purchase"⟩ : PyExc).cls =
      (⟨ExcClass.sigmaTimeout, "No PURCHASE response within timeout"⟩ :
        PyExc).cls := by
  refine ⟨?_, ?_, by decide⟩ <;> decide

/-- C5 (amended).  Whenever the initial `ensure_idle` returns false,
purchase fails by raising `SigmaTimeout` with the message "Terminal not
idle before purchase" — the same exception class as a response timeout,
distinguishable only by its message — and no PURCHASE request is sent
(the trace holds only status/recovery methods). -/
theorem sigma_C5_amended (idleFuel : Nat) (idleSts : List (Option Props))
    (sid : String) (ff fw : Nat) (stream : List (Option Props))
    (postFuel : Nat) (postSts : List (Option Props)) (tr : List String)
    (h : ensureIdle idleFuel idleSts = (.ok false, tr)) :
    purchase idleFuel idleSts sid ff fw stream postFuel postSts =
      (.error ⟨.sigmaTimeout, "Terminal not idle before purchase"⟩, tr) ∧
    "PURCHASE" ∉ tr := by
  constructor
  · unfold purchase
    rw [h]
  · intro hmem
    have htr : tr = (ensureIdle idleFuel idleSts).2 := by rw [h]
    rcases ensureIdle_trace_mem idleFuel idleSts "PURCHASE"
      (htr ▸ hmem) with he | he | he | he <;> exact absurd he (by decide)

/-- Witness for C5 (amended): a device that never answers GET_STATUS. -/
theorem sigma_C5_amended_witness :
    purchase 1 [none] "SE" 1 1 [] 0 [] =
      (.error ⟨.sigmaTimeout, "Terminal not idle before purchase"⟩,
        ["GET_STATUS"]) ∧
    "PURCHASE" ∉ ["GET_STATUS"] :=
  sigma_C5_amended 1 [none] "SE" 1 1 [] 0 [] ["GET_STATUS"] (by decide)

/-- C6 as stated fails on the code in both halves: (1) the response-timeout
failure is `SigmaTimeout("No PURCHASE response within timeout")`, a bare
message carrying no frame fields — two runs that observed different
(non-matching) frames raise byte-identical exceptions; (2) exhaustion of
the final-wait budget does not produce a Timeout at all: the last-seen
non-final frame is returned as an ordinary result, here with
approved=false — the silent false-negative the claim rules out. -/
theorem sigma_C6_counterexample :
    (purchase 1 [some [("STATUS", "0")]] "SC" 2 2 [none, none] 0 []).1 =
      Except.error ⟨.sigmaTimeout, "No PURCHASE response within timeout"⟩ ∧
    (purchase 1 [some [("STATUS", "0")]] "SC" 2 2
        [some [("METHOD", "GET_STATUS"), ("SID", "ZZ"), ("STATUS", "7"),
               ("RRN", "123")], none] 0 []).1 =
      (purchase 1 [some [("STATUS", "0")]] "SC" 2 2 [none, none] 0 []).1 ∧
    (purchase 1 [some [("STATUS", "0")]] "SC" 1 2
        [some [("METHOD", "PURCHASE"), ("SID", "SC"), ("STATUS", "0"),
               ("TIMEOUT", "60")],
         some [("METHOD", "PURCHASE"), ("SID", "SC"), ("STATUS", "5"),
               ("TIMEOUT", "60")]] 0 []).1 =
      Except.ok ⟨false, "5", "", "60",
        [("METHOD", "PURCHASE"), ("SID", "SC"), ("STATUS", "5"),
         ("TIMEOUT", "60")]⟩ ∧
    timeoutIsFinal [("METHOD", "PURCHASE"), ("SID", "SC"), ("STATUS", "5"),
      ("TIMEOUT", "60")] = false := by
  refine ⟨?_, ?_, ?_, by decide⟩ <;> decide

/-- C6 (amended).  After a successful `ensure_idle`: if no matching frame
arrives within the first-wait budget, purchase raises `SigmaTimeout`
carrying only the fixed message "No PURCHASE response within timeout" and
no frame fields; if the correlator returns any frame — including a
non-final one after the final-wait budget is exhausted — purchase does not
raise but returns an ordinary result built from that frame's fields. -/
theorem sigma_C6_amended (idleFuel : Nat) (idleSts : List (Option Props))
    (sid : String) (ff fw : Nat) (stream : List (Option Props))
    (postFuel : Nat) (postSts : List (Option Props)) (tr : List String)
    (h : ensureIdle idleFuel idleSts = (.ok true, tr)) :
    (waitForSid "PURCHASE" sid ff fw stream = none →
      (purchase idleFuel idleSts sid ff fw stream postFuel postSts).1 =
        .error ⟨.sigmaTimeout, "No PURCHASE response within timeout"⟩)
    ∧ (∀ f, waitForSid "PURCHASE" sid ff fw stream = some f →
      (purchase idleFuel idleSts sid ff fw stream postFuel postSts).1 =
        .ok ⟨statusNorm f == "0", statusNorm f, fieldNorm f "STAGE",
          fieldNorm f "TIMEOUT", f⟩) := by
  constructor
  · intro hw
    unfold purchase
    rw [h, hw]
  · intro f hw
    unfold purchase
    rw [h, hw]

/-- Witness for C6 (amended): the no-response run raises the fixed-message
timeout. -/
theorem sigma_C6_amended_witness :
    (purchase 1 [some [("STATUS", "0")]] "SF" 1 1 [none] 0 []).1 =
      .error ⟨.sigmaTimeout, "No PURCHASE response within timeout"⟩ :=
  (sigma_C6_amended 1 [some [("STATUS", "0")]] "SF" 1 1 [none] 0 []
    ["GET_STATUS"] (by decide)).1 (by decide)

/-!
Request line construction for PURCHASE (`_send_method` plus the extra
lines `purchase` builds).  Amounts are formatted as pounds.pence with the
pence zero-padded to two digits; the reference is appended only when
non-empty (Python string truthiness) and truncated to its first 64
characters. -/

/-- Python `f"{amount//100}.{amount%100:02d}"` for a non-negative amount in
minor units. -/
def amtStr (amountMinor : Nat) : String :=
  toString (amountMinor / 100) ++ "." ++
    (if amountMinor % 100 < 10 then "0" else "") ++ toString (amountMinor % 100)

/-- Model of `_send_method` line construction: PROTOCOL first, METHOD
second, then VERSION and SID, then the extra lines. -/
def sendMethodLines (method version sid : String) (extra : List String) :
    List String :=
  ["PROTOCOL=IPP", "METHOD=" ++ method, "VERSION=" ++ version,
   "SID=" ++ sid] ++ extra

/-- The extra lines `purchase` builds: AMOUNT, CURRENCY, and — only for a
non-empty reference — REFERENCE truncated to 64 characters. -/
def purchaseExtraLines (amountMinor : Nat) (currency reference : String) :
    List String :=
  ["AMOUNT=" ++ amtStr amountMinor, "CURRENCY=" ++ currency] ++
    (if reference = "" then [] else ["REFERENCE=" ++ reference.take 64])

/-- The full PURCHASE request line list. -/
def purchaseRequestLines (version sid : String) (amountMinor : Nat)
    (currency reference : String) : List String :=
  sendMethodLines "PURCHASE" version sid
    (purchaseExtraLines amountMinor currency reference)

/-- Two character lists with different heads are never in the prefix
relation. -/
theorem no_pre_of_ne_head (p l : List Char) (c d : Char)
    (cp lp : List Char) (hp : p = c :: cp) (hl : l = d :: lp)
    (hcd : c ≠ d) : ¬ p <+: l := by
  rintro ⟨t, ht⟩
  rw [hp, hl, List.cons_append] at ht
  exact hcd (List.cons.inj ht).1

/-- C9.  A purchase request carries a REFERENCE line equal to the first 64
characters of a non-empty reference (longer references are silently
truncated, the construction is total and never rejects), and for an empty
reference the request has no REFERENCE line at all: the line list is
exactly the six fixed lines and none of them begins with the characters
REFERENCE=. -/
theorem sigma_C9 (version sid : String) (amountMinor : Nat)
    (currency reference : String) :
    (reference ≠ "" →
      purchaseRequestLines version sid amountMinor currency reference =
        ["PROTOCOL=IPP", "METHOD=" ++ "PURCHASE", "VERSION=" ++ version,
         "SID=" ++ sid, "AMOUNT=" ++ amtStr amountMinor,
         "CURRENCY=" ++ currency, "REFERENCE=" ++ reference.take 64])
    ∧ (reference = "" →
      purchaseRequestLines version sid amountMinor currency reference =
        ["PROTOCOL=IPP", "METHOD=" ++ "PURCHASE", "VERSION=" ++ version,
         "SID=" ++ sid, "AMOUNT=" ++ amtStr amountMinor,
         "CURRENCY=" ++ currency] ∧
      ∀ l ∈ purchaseRequestLines version sid amountMinor currency reference,
        ¬ ("REFERENCE=").data <+: l.data) := by
  constructor
  · intro hne
    simp [purchaseRequestLines, sendMethodLines, purchaseExtraLines, hne]
  · intro he
    subst he
    refine ⟨by simp [purchaseRequestLines, sendMethodLines,
      purchaseExtraLines], ?_⟩
    intro l hl
    have hRdata : ("REFERENCE=").data = 'R' :: ("EFERENCE=").data := rfl
    simp [purchaseRequestLines, sendMethodLines, purchaseExtraLines] at hl
    rcases hl with rfl | rfl | rfl | rfl | rfl | rfl
    · exact no_pre_of_ne_head _ _ 'R' 'P' _ _ hRdata rfl (by decide)
    · exact no_pre_of_ne_head _ _ 'R' 'M' _ ("ETHOD=PURCHASE").data
        hRdata rfl (by decide)
    · exact no_pre_of_ne_head _ _ 'R' 'V' _ ("ERSION=".data ++
        version.data) hRdata rfl (by decide)
    · exact no_pre_of_ne_head _ _ 'R' 'S' _ ("ID=".data ++ sid.data)
        hRdata rfl (by decide)
    · exact no_pre_of_ne_head _ _ 'R' 'A' _ ("MOUNT=".data ++
        (amtStr amountMinor).data) hRdata rfl (by decide)
    · exact no_pre_of_ne_head _ _ 'R' 'C' _ ("URRENCY=".data ++
        currency.data) hRdata rfl (by decide)

/-- Witness for C9: a concrete request with a reference longer than 64
characters is truncated to its first 64. -/
theorem sigma_C9_witness :
    purchaseRequestLines "202" "SID1" 150 "826"
        ("ORD-0123456789012345678901234567890123456789012345678901234567890123456789") =
      ["PROTOCOL=IPP", "METHOD=" ++ "PURCHASE", "VERSION=" ++ "202",
       "SID=" ++ "SID1", "AMOUNT=" ++ amtStr 150, "CURRENCY=" ++ "826",
       "REFERENCE=" ++
         ("ORD-0123456789012345678901234567890123456789012345678901234567890123456789").take 64] :=
  (sigma_C9 "202" "SID1" 150 "826"
    "ORD-0123456789012345678901234567890123456789012345678901234567890123456789").1
    (by decide)

end SigmaIpp
